import Mathlib

/-!
Verification of the Manim-Physics-Model repository's time engine
(`src/timebase.py`) and coordinate helper (`src/coordinates.py`).

The Python code is shallowly embedded over the exact rationals `ℚ`:
every float field becomes a `ℚ` field, and Python's float positive
infinity (used only as the `t_max` of a `TimeWindow`) becomes the
`none` case of an `Option ℚ`.  Python's `%` on floats with a positive
right operand is `x - y * ⌊x / y⌋`, embedded below as `qmod`.

Cue callbacks are uninterpreted side-effecting functions in the source; the
embedding records each invocation the source would perform as a
`CueEvent` value (the cue's registration index together with the
argument the source passes to the callback), so "the callback is
invoked" becomes "the event is in the returned list".  Every mutating
operation of the source that can invoke callbacks returns its state
together with the list of invocations it performs, in order; `seek`'s
body in the source contains no cue-firing call, so its event list is
empty by construction.
-/

namespace TimebaseModel

/-- Wrap policy, from `WrapMode = Literal["clamp", "loop", "pingpong"]`. -/
inductive WrapMode where
  | clamp
  | loop
  | pingpong
deriving DecidableEq, Repr

/-- The `TimeWindow` dataclass: `t_min`, `t_max` (possibly `+inf`, the `none` case). -/
structure TimeWindow where
  t_min : ℚ
  t_max : Option ℚ
deriving DecidableEq, Repr

/-- The check `finite = (a < b) and (b != float("inf"))` from `Timebase._wrap`. -/
def TimeWindow.finite (w : TimeWindow) : Bool :=
  match w.t_max with
  | none => false
  | some b => decide (w.t_min < b)

/-- The expression `max(a, min(t, b))`, the clamp expression of `_wrap`; with `b = +inf`,
`min(t, b) = t`. -/
def clampVal (w : TimeWindow) (t : ℚ) : ℚ :=
  match w.t_max with
  | none => max w.t_min t
  | some b => max w.t_min (min t b)

/-- Python's float `x % y` in exact arithmetic (`y > 0` in all uses here). -/
def qmod (x y : ℚ) : ℚ := x - y * ⌊x / y⌋

/-- The triangle wave computed by the pingpong branch of `_wrap`, as a
function of the offset `u = t - t_min` and the window length `L`; a pure
mathematical helper used to reason about that branch. -/
def triWave (L u : ℚ) : ℚ :=
  if qmod u (2 * L) ≤ L then qmod u (2 * L) else 2 * L - qmod u (2 * L)

/-- One recorded cue-callback invocation: the constructor says which source
callback fired (`fn` of an instant cue, `on_enter`, `on_exit`), `idx` is the
cue's registration index and `t` the argument passed to the callback. -/
inductive CueEvent where
  | instant (idx : ℕ) (t : ℚ)
  | enter (idx : ℕ) (t : ℚ)
  | exit (idx : ℕ) (t : ℚ)
deriving DecidableEq, Repr

/-- The `Timebase` state.  `ValueTracker`-wrapped scalars are plain fields;
`running` is the boolean reading of the `1.0 / 0.0` tracker.  Instant cues
keep only their trigger time (callbacks are uninterpreted); range cues keep
`(t0, t1)`, and `range_state` is the per-registration-index `inside` flag
(the source dict is keyed by `(t0, t1, idx)` with `idx` unique, which is
exactly a by-index table). -/
structure Timebase where
  time : ℚ
  prev_time : ℚ
  rate : ℚ
  running : Bool
  wrap_mode : WrapMode
  window : TimeWindow
  clamp_dt : ℚ
  dir_sign : ℚ
  instant_cues : List ℚ
  range_cues : List (ℚ × ℚ)
  range_state : List Bool
deriving DecidableEq, Repr

/-- Embeds `Timebase.__init__`: note that `t0` is stored unwrapped. -/
def Timebase.init (t0 rate : ℚ) (wrap : WrapMode) (window : TimeWindow)
    (clamp_dt : ℚ) : Timebase :=
  { time := t0
    prev_time := t0
    rate := rate
    running := true
    wrap_mode := wrap
    window := window
    clamp_dt := clamp_dt
    dir_sign := 1
    instant_cues := []
    range_cues := []
    range_state := [] }

/-- Embeds `Timebase.on(t, fn)`: append an instant cue. -/
def Timebase.on (s : Timebase) (t : ℚ) : Timebase :=
  { s with instant_cues := s.instant_cues ++ [t] }

/-- Embeds `Timebase.on_range(t0, t1, on_enter, on_exit)`: append a range cue with a
fresh `inside = False` flag at its registration index. -/
def Timebase.on_range (s : Timebase) (t0 t1 : ℚ) : Timebase :=
  { s with
    range_cues := s.range_cues ++ [(t0, t1)]
    range_state := s.range_state ++ [false] }

/-- Embeds `Timebase.clear_cues`. -/
def Timebase.clear_cues (s : Timebase) : Timebase :=
  { s with instant_cues := [], range_cues := [], range_state := [] }

/-- Embeds `Timebase._wrap`. -/
def wrapF (mode : WrapMode) (w : TimeWindow) (t : ℚ) : ℚ :=
  let a := w.t_min
  if mode = WrapMode.clamp ∨ w.finite = false then clampVal w t
  else
    match w.t_max with
    | none => t
    | some b =>
      let length := b - a
      if length = 0 then a
      else if mode = WrapMode.loop then a + qmod (t - a) length
      else if mode = WrapMode.pingpong then
        let m := qmod (t - a) (2 * length)
        a + (if m ≤ length then m else 2 * length - m)
      else t

/-- Embeds `Timebase.seek(t)`: wrap `t`, store it as both `time` and `prev_time`.
The source body performs no cue firing, hence the empty event list. -/
def Timebase.seek (s : Timebase) (t : ℚ) : Timebase × List CueEvent :=
  let nt := wrapF s.wrap_mode s.window t
  ({ s with time := nt, prev_time := nt }, [])

/-- Embeds `Timebase.set_window(t_min, t_max)`: replace the window, then re-seek the
current time. -/
def Timebase.set_window (s : Timebase) (t_min : ℚ) (t_max : Option ℚ) :
    Timebase × List CueEvent :=
  Timebase.seek { s with window := ⟨t_min, t_max⟩ } s.time

/-- Embeds `Timebase.set_wrap(mode)`: replace the wrap mode, then re-seek. -/
def Timebase.set_wrap (s : Timebase) (m : WrapMode) : Timebase × List CueEvent :=
  Timebase.seek { s with wrap_mode := m } s.time

/-- Embeds `Timebase._wrap_with_bounce(t_before, t_after)`. -/
def wrapWithBounce (s : Timebase) (t_before t_after : ℚ) : ℚ × Bool :=
  let a := s.window.t_min
  if s.wrap_mode = WrapMode.clamp ∨ s.window.finite = false then
    (clampVal s.window t_after, false)
  else if s.wrap_mode = WrapMode.loop then
    (wrapF s.wrap_mode s.window t_after, false)
  else
    match s.window.t_max with
    | none => (t_after, false)
    | some b =>
      let wrapped := wrapF s.wrap_mode s.window t_after
      let eps : ℚ := 1 / 1000000000
      let hit_left :=
        decide ((t_before - a) * (t_after - a) < 0) || decide (|wrapped - a| < eps)
      let hit_right :=
        decide ((t_before - b) * (t_after - b) < 0) || decide (|wrapped - b| < eps)
      (wrapped, hit_left || hit_right)

/-- The `between(x, u, v)` helper of `_fire_cues`: `x` lies in the closed
interval spanned by `u` and `v` in either order. -/
def between (x u v : ℚ) : Bool :=
  let lo := if u ≤ v then u else v
  let hi := if u ≤ v then v else u
  decide (lo ≤ x) && decide (x ≤ hi)

/-- The per-range-cue body of `_fire_cues`: given the new `inside_now` and
the stored flag, the updated flag and the callback invocation, if any. -/
def rangeStep (t_now : ℚ) (idx : ℕ) (c : ℚ × ℚ) (was : Bool) :
    Bool × Option CueEvent :=
  let inside_now := between t_now c.1 c.2
  if inside_now && !was then (true, some (CueEvent.enter idx t_now))
  else if !inside_now && was then (false, some (CueEvent.exit idx t_now))
  else (was, none)

/-- Embeds `Timebase._fire_cues`: instant cues scanned in registration order against
the closed segment `[prev_time, time]` (skipped when the segment is empty),
then range cues tested for membership of the endpoint `time` only. -/
def fireCues (s : Timebase) : Timebase × List CueEvent :=
  let t_prev := s.prev_time
  let t_now := s.time
  let instEvents : List CueEvent :=
    if t_prev ≠ t_now then
      (s.instant_cues.enum.filterMap fun p =>
        if between p.2 t_prev t_now then some (CueEvent.instant p.1 p.2) else none)
    else []
  let rangeResults : List (Bool × Option CueEvent) :=
    (s.range_cues.zip s.range_state).enum.map fun p =>
      rangeStep t_now p.1 p.2.1 p.2.2
  ({ s with range_state := rangeResults.map Prod.fst },
   instEvents ++ rangeResults.filterMap Prod.snd)

/-- Embeds `Timebase._step(mob, dt_real)`: the per-frame advance. -/
def Timebase.step (s : Timebase) (dt_real : ℚ) : Timebase × List CueEvent :=
  if s.running = false then (s, [])
  else
    let dt := if dt_real ≤ s.clamp_dt then dt_real else s.clamp_dt
    let eff_rate :=
      s.rate * (if s.wrap_mode = WrapMode.pingpong then s.dir_sign else 1)
    let old := s.time
    let proposed := old + eff_rate * dt
    let wb := wrapWithBounce s old proposed
    let dir :=
      if wb.2 = true ∧ s.wrap_mode = WrapMode.pingpong then s.dir_sign * (-1)
      else s.dir_sign
    fireCues { s with dir_sign := dir, prev_time := old, time := wb.1 }

/-- A sequence of `advance` calls, accumulating the callback invocations. -/
def runSteps (s : Timebase) (dts : List ℚ) : Timebase × List CueEvent :=
  dts.foldl (fun acc dt =>
    let r := Timebase.step acc.1 dt
    (r.1, acc.2 ++ r.2)) (s, [])

/-- Containment of a time in a window: `t_min ≤ t` and `t ≤ t_max` (the
upper bound is vacuous when `t_max = +inf`). -/
def inWindow (w : TimeWindow) (t : ℚ) : Prop :=
  w.t_min ≤ t ∧ ∀ b, w.t_max = some b → t ≤ b

/-- A non-inverted window: `t_min ≤ t_max` (vacuous when `t_max = +inf`). -/
def TimeWindow.ordered (w : TimeWindow) : Prop :=
  ∀ b, w.t_max = some b → w.t_min ≤ b

/-- The registration index of an instant-cue invocation, if it is one. -/
def instantIdx : CueEvent → Option ℕ
  | CueEvent.instant i _ => some i
  | _ => none

end TimebaseModel

namespace CoordsModel

/-- The `Coords` dataclass of `src/coordinates.py`.  `x_right` and `y_up`
are `±1` ints in the source, embedded as rationals. -/
structure Coords where
  meters_per_unit : ℚ
  origin_scene : ℚ × ℚ
  x_right : ℚ
  y_up : ℚ
deriving DecidableEq, Repr

/-- Embeds `Coords.world_len_to_scene(meters) = meters / meters_per_unit`. -/
def Coords.world_len_to_scene (c : Coords) (meters : ℚ) : ℚ :=
  meters / c.meters_per_unit

/-- Embeds `Coords.scene_len_to_world(scene_units) = scene_units * meters_per_unit`. -/
def Coords.scene_len_to_world (c : Coords) (scene_units : ℚ) : ℚ :=
  scene_units * c.meters_per_unit

/-- Embeds `Coords.world_to_scene_point(x_m, y_m) → [sc_x, sc_y, 0]`. -/
def Coords.world_to_scene_point (c : Coords) (x_m y_m : ℚ) : ℚ × ℚ × ℚ :=
  (c.origin_scene.1 + c.x_right * c.world_len_to_scene x_m,
   c.origin_scene.2 + c.y_up * c.world_len_to_scene y_m,
   0)

/-- Embeds `Coords.scene_to_world_point(x_sc, y_sc) → [world_x, world_y]`. -/
def Coords.scene_to_world_point (c : Coords) (x_sc y_sc : ℚ) : ℚ × ℚ :=
  let dx_scene := (x_sc - c.origin_scene.1) * c.x_right
  let dy_scene := (y_sc - c.origin_scene.2) * c.y_up
  (c.scene_len_to_world dx_scene, c.scene_len_to_world dy_scene)

end CoordsModel

namespace TimebaseModel

/-! ### Basic facts about `qmod`, `clampVal` and `wrapF` -/

theorem qmod_eq_fract (x : ℚ) {y : ℚ} (hy : y ≠ 0) :
    qmod x y = y * Int.fract (x / y) := by
  unfold qmod Int.fract
  field_simp

theorem qmod_nonneg (x : ℚ) {y : ℚ} (hy : 0 < y) : 0 ≤ qmod x y := by
  rw [qmod_eq_fract x hy.ne']
  have := Int.fract_nonneg (x / y)
  positivity

theorem qmod_lt (x : ℚ) {y : ℚ} (hy : 0 < y) : qmod x y < y := by
  rw [qmod_eq_fract x hy.ne']
  have h := Int.fract_lt_one (x / y)
  nlinarith [Int.fract_nonneg (x / y)]

theorem qmod_add_right (x : ℚ) {y : ℚ} (hy : y ≠ 0) :
    qmod (x + y) y = qmod x y := by
  unfold qmod
  have hdiv : (x + y) / y = x / y + 1 := by field_simp
  rw [hdiv, Int.floor_add_one]
  push_cast
  ring

theorem inWindow_some {w : TimeWindow} {b x : ℚ} (hb : w.t_max = some b)
    (h1 : w.t_min ≤ x) (h2 : x ≤ b) : inWindow w x := by
  refine ⟨h1, ?_⟩
  intro b' hb'
  rw [hb] at hb'
  injection hb' with h
  rwa [← h]

theorem inWindow_none {w : TimeWindow} {x : ℚ} (hb : w.t_max = none)
    (h1 : w.t_min ≤ x) : inWindow w x := by
  refine ⟨h1, ?_⟩
  intro b' hb'
  rw [hb] at hb'
  cases hb'

theorem clampVal_mem (w : TimeWindow) (t : ℚ) (hw : w.ordered) :
    inWindow w (clampVal w t) := by
  cases hb : w.t_max with
  | none =>
    exact inWindow_none hb (by simp [clampVal, hb])
  | some b =>
    refine inWindow_some hb (by simp [clampVal, hb]) ?_
    simp only [clampVal, hb]
    exact max_le (hw _ hb) (min_le_right _ _)

theorem wrapF_mem (m : WrapMode) (w : TimeWindow) (t : ℚ) (hw : w.ordered) :
    inWindow w (wrapF m w t) := by
  unfold wrapF
  by_cases hc : m = WrapMode.clamp ∨ w.finite = false
  · simpa [hc] using clampVal_mem w t hw
  · have hfin : w.finite = true := by
      cases hft : w.finite
      · exact absurd (Or.inr hft) hc
      · rfl
    simp only [hc, if_false]
    cases hb : w.t_max with
    | none => simp [TimeWindow.finite, hb] at hfin
    | some b =>
      have hab : w.t_min < b := by
        simpa [TimeWindow.finite, hb] using hfin
      have hlen : 0 < b - w.t_min := by linarith
      by_cases h0 : b - w.t_min = 0
      · simp only [h0, if_true]
        exact inWindow_some hb (le_refl _) (by linarith)
      · simp only [h0, if_false]
        by_cases hloop : m = WrapMode.loop
        · simp only [hloop, if_true]
          have h1 := qmod_nonneg (t - w.t_min) hlen
          have h2 := qmod_lt (t - w.t_min) hlen
          exact inWindow_some hb (by linarith) (by linarith)
        · simp only [hloop, if_false]
          by_cases hpp : m = WrapMode.pingpong
          · simp only [hpp, if_true]
            have hlen2 : 0 < 2 * (b - w.t_min) := by linarith
            have h1 := qmod_nonneg (t - w.t_min) hlen2
            have h2 := qmod_lt (t - w.t_min) hlen2
            by_cases hm : qmod (t - w.t_min) (2 * (b - w.t_min)) ≤ b - w.t_min
            · simp only [hm, if_true]
              exact inWindow_some hb (by linarith) (by linarith)
            · simp only [hm, if_false]
              push_neg at hm
              exact inWindow_some hb (by linarith) (by linarith)
          · cases m <;> simp_all

end TimebaseModel

namespace TimebaseModel

/-! ### The pingpong branch as a triangle wave -/

theorem wrapF_pingpong_eq {w : TimeWindow} {b : ℚ} (hb : w.t_max = some b)
    (hab : w.t_min < b) (t : ℚ) :
    wrapF WrapMode.pingpong w t = w.t_min + triWave (b - w.t_min) (t - w.t_min) := by
  have hfin : w.finite = true := by simp [TimeWindow.finite, hb, hab]
  have hlen : b - w.t_min ≠ 0 := by intro h; linarith
  simp only [wrapF, hfin, hb, triWave]
  norm_num [hlen]
  simp

theorem triWave_eq_abs {L : ℚ} (hL : 0 < L) (u : ℚ) :
    ∃ k : ℤ, triWave L u = |u - 2 * L * k| := by
  have h2L : (0 : ℚ) < 2 * L := by linarith
  have hm0 := qmod_nonneg u h2L
  have hm2 := qmod_lt u h2L
  unfold triWave
  by_cases hm : qmod u (2 * L) ≤ L
  · refine ⟨⌊u / (2 * L)⌋, ?_⟩
    simp only [hm, if_true]
    rw [abs_of_nonneg]
    · unfold qmod; ring
    · have : qmod u (2 * L) = u - 2 * L * ⌊u / (2 * L)⌋ := by unfold qmod; ring
      linarith [this ▸ hm0]
  · refine ⟨⌊u / (2 * L)⌋ + 1, ?_⟩
    simp only [hm, if_false]
    have heq : u - 2 * L * (⌊u / (2 * L)⌋ + 1 : ℤ) = qmod u (2 * L) - 2 * L := by
      unfold qmod; push_cast; ring
    rw [heq, abs_of_nonpos (by linarith)]
    ring

theorem triWave_le_abs {L : ℚ} (hL : 0 < L) (u : ℚ) (k : ℤ) :
    triWave L u ≤ |u - 2 * L * k| := by
  have h2L : (0 : ℚ) < 2 * L := by linarith
  have hm0 := qmod_nonneg u h2L
  have hm2 := qmod_lt u h2L
  have key : u - 2 * L * k = qmod u (2 * L) + 2 * L * ((⌊u / (2 * L)⌋ : ℚ) - k) := by
    unfold qmod; ring
  have htri : triWave L u ≤ qmod u (2 * L) ∧ triWave L u ≤ 2 * L - qmod u (2 * L) := by
    unfold triWave
    by_cases hm : qmod u (2 * L) ≤ L
    · simp only [hm, if_true]; constructor <;> linarith
    · simp only [hm, if_false]; push_neg at hm; constructor <;> linarith
  rcases lt_trichotomy (⌊u / (2 * L)⌋) k with hc | hc | hc
  · have hc1 : (⌊u / (2 * L)⌋ : ℚ) - k ≤ -1 := by
      have h' : (⌊u / (2 * L)⌋ : ℤ) ≤ k - 1 := by omega
      have h'' : ((⌊u / (2 * L)⌋ : ℤ) : ℚ) ≤ ((k - 1 : ℤ) : ℚ) := by
        exact_mod_cast h'
      push_cast at h''
      linarith
    have hneg : u - 2 * L * k ≤ -(2 * L - qmod u (2 * L)) := by nlinarith
    calc triWave L u ≤ 2 * L - qmod u (2 * L) := htri.2
    _ ≤ |u - 2 * L * k| := by
        rw [abs_of_nonpos (by nlinarith)]
        linarith
  · subst hc
    rw [key]
    simp only [sub_self, mul_zero, add_zero]
    rw [abs_of_nonneg hm0]
    exact htri.1
  · have hc1 : (1 : ℚ) ≤ (⌊u / (2 * L)⌋ : ℚ) - k := by
      have h' : k + 1 ≤ (⌊u / (2 * L)⌋ : ℤ) := by omega
      have h'' : ((k + 1 : ℤ) : ℚ) ≤ ((⌊u / (2 * L)⌋ : ℤ) : ℚ) := by
        exact_mod_cast h'
      push_cast at h''
      linarith
    have hpos : 2 * L - qmod u (2 * L) ≤ u - 2 * L * k := by nlinarith
    calc triWave L u ≤ 2 * L - qmod u (2 * L) := htri.2
    _ ≤ |u - 2 * L * k| := by
        rw [abs_of_nonneg (by nlinarith)]
        linarith

theorem abs_triWave_sub_le {L : ℚ} (hL : 0 < L) (u v : ℚ) :
    |triWave L u - triWave L v| ≤ |u - v| := by
  obtain ⟨ku, hku⟩ := triWave_eq_abs hL u
  obtain ⟨kv, hkv⟩ := triWave_eq_abs hL v
  have h1 : triWave L u ≤ |u - v| + triWave L v := by
    have hle := triWave_le_abs hL u kv
    have hsplit : u - 2 * L * kv = (u - v) + (v - 2 * L * kv) := by ring
    calc triWave L u ≤ |u - 2 * L * kv| := hle
    _ ≤ |u - v| + |v - 2 * L * kv| := by rw [hsplit]; exact abs_add _ _
    _ = |u - v| + triWave L v := by rw [← hkv]
  have h2 : triWave L v ≤ |u - v| + triWave L u := by
    have hle := triWave_le_abs hL v ku
    have hsplit : v - 2 * L * ku = (v - u) + (u - 2 * L * ku) := by ring
    calc triWave L v ≤ |v - 2 * L * ku| := hle
    _ ≤ |v - u| + |u - 2 * L * ku| := by rw [hsplit]; exact abs_add _ _
    _ = |u - v| + triWave L u := by rw [← hku, abs_sub_comm]
  rw [abs_sub_le_iff]
  constructor <;> linarith

theorem triWave_eq_self {L : ℚ} (hL : 0 < L) {u : ℚ} (h0 : 0 ≤ u) (hu : u ≤ L) :
    triWave L u = u := by
  have h2L : (0 : ℚ) < 2 * L := by linarith
  have hfl : ⌊u / (2 * L)⌋ = 0 := by
    rw [Int.floor_eq_iff]
    constructor
    · push_cast
      positivity
    · push_cast
      rw [div_lt_iff₀ h2L]
      linarith
  have hq : qmod u (2 * L) = u := by
    unfold qmod
    rw [hfl]
    push_cast
    ring
  unfold triWave
  rw [hq]
  simp [hu]

theorem wrapF_pingpong_fixed {w : TimeWindow} {b : ℚ} (hb : w.t_max = some b)
    (hab : w.t_min < b) {t : ℚ} (ht : inWindow w t) :
    wrapF WrapMode.pingpong w t = t := by
  rw [wrapF_pingpong_eq hb hab]
  rw [triWave_eq_self (by linarith) (by linarith [ht.1]) (by
    have := ht.2 b hb
    linarith)]
  ring

end TimebaseModel

namespace TimebaseModel

/-! ### Clamping moves a contained point by at most the step -/

theorem abs_clampVal_sub_le (w : TimeWindow) {t : ℚ} (d : ℚ) (ht : inWindow w t) :
    |clampVal w (t + d) - t| ≤ |d| := by
  obtain ⟨h1, h2⟩ := ht
  have hd1 : d ≤ |d| := le_abs_self d
  have hd2 : -|d| ≤ d := neg_abs_le d
  rw [abs_le]
  cases hb : w.t_max with
  | none =>
    simp only [clampVal, hb]
    constructor
    · have := le_max_right w.t_min (t + d)
      linarith
    · have hmax : max w.t_min (t + d) ≤ t + |d| := max_le (by linarith) (by linarith)
      linarith
  | some b =>
    have h2b : t ≤ b := h2 b hb
    simp only [clampVal, hb]
    constructor
    · have hmin : t - |d| ≤ min (t + d) b := le_min (by linarith) (by linarith)
      have := le_trans hmin (le_max_right w.t_min _)
      linarith
    · have hmax : max w.t_min (min (t + d) b) ≤ t + |d| :=
        max_le (by linarith) (le_trans (min_le_left _ _) (by linarith))
      linarith

/-! ### Unfolding `_step` and `_fire_cues` -/

theorem fireCues_time (s : Timebase) : (fireCues s).1.time = s.time := rfl

theorem fireCues_prev (s : Timebase) : (fireCues s).1.prev_time = s.prev_time := rfl

theorem fireCues_dir (s : Timebase) : (fireCues s).1.dir_sign = s.dir_sign := rfl

theorem fireCues_instant_cues (s : Timebase) :
    (fireCues s).1.instant_cues = s.instant_cues := rfl

theorem step_not_running (s : Timebase) (dt_real : ℚ) (h : s.running = false) :
    s.step dt_real = (s, []) := by
  simp [Timebase.step, h]

theorem step_running (s : Timebase) (dt_real : ℚ) (h : s.running = true) :
    s.step dt_real =
      fireCues { s with
        dir_sign :=
          if (wrapWithBounce s s.time (s.time + s.rate *
                (if s.wrap_mode = WrapMode.pingpong then s.dir_sign else 1) *
                (if dt_real ≤ s.clamp_dt then dt_real else s.clamp_dt))).2 = true ∧
              s.wrap_mode = WrapMode.pingpong
          then s.dir_sign * (-1) else s.dir_sign
        prev_time := s.time
        time := (wrapWithBounce s s.time (s.time + s.rate *
                (if s.wrap_mode = WrapMode.pingpong then s.dir_sign else 1) *
                (if dt_real ≤ s.clamp_dt then dt_real else s.clamp_dt))).1 } := by
  simp only [Timebase.step, h]
  rfl

end TimebaseModel

namespace TimebaseModel

/-! ### Constructor disequalities for `WrapMode`, for concrete evaluation -/

@[simp] theorem pingpong_ne_clamp : WrapMode.pingpong ≠ WrapMode.clamp :=
  fun h => WrapMode.noConfusion h

@[simp] theorem pingpong_ne_loop : WrapMode.pingpong ≠ WrapMode.loop :=
  fun h => WrapMode.noConfusion h

@[simp] theorem loop_ne_clamp : WrapMode.loop ≠ WrapMode.clamp :=
  fun h => WrapMode.noConfusion h

@[simp] theorem loop_ne_pingpong : WrapMode.loop ≠ WrapMode.pingpong :=
  fun h => WrapMode.noConfusion h

@[simp] theorem clamp_ne_loop : WrapMode.clamp ≠ WrapMode.loop :=
  fun h => WrapMode.noConfusion h

@[simp] theorem clamp_ne_pingpong : WrapMode.clamp ≠ WrapMode.pingpong :=
  fun h => WrapMode.noConfusion h

/-! ### Claim theorems -/

/-- C1: the code does NOT fail fast on a zero-length or inverted window under
Loop/PingPong.  `_wrap` classifies such a window as non-finite and silently
falls back to clamping: on the degenerate window `[1, 1]` under Loop, and the
inverted window `[2, 1]` under PingPong, `wrap` returns the clamped value and
`seek` completes normally with no error surfaced. -/
theorem claim_C1_wrap_silently_clamps_degenerate_window :
    wrapF WrapMode.loop ⟨1, some 1⟩ 5 = 1 ∧
    wrapF WrapMode.pingpong ⟨2, some 1⟩ 5 = 2 ∧
    ((Timebase.init 0 1 WrapMode.loop ⟨1, some 1⟩ (1/30)).seek 5).1.time = 1 ∧
    ((Timebase.init 0 1 WrapMode.loop ⟨1, some 1⟩ (1/30)).seek 5).2 = [] := by
  decide

/-- C2 counterexample: with the DEFAULT `clamp_dt = 1/30`, each `advance(0.5)`
is clamped to a step of `1/30`, so after three calls time is `1/10` (never
`0.5`, `1.0`, `1.5`) and the instant cue at `1.0` is never invoked — the claim
as stated is false. -/
theorem claim_C2_counterexample :
    (runSteps ((Timebase.init 0 1 WrapMode.pingpong ⟨0, some 2⟩ (1/30)).on 1)
        [1/2, 1/2, 1/2]).1.time = 1/10 ∧
    (runSteps ((Timebase.init 0 1 WrapMode.pingpong ⟨0, some 2⟩ (1/30)).on 1)
        [1/2, 1/2, 1/2]).2 = [] := by
  norm_num [runSteps, Timebase.step, Timebase.init, Timebase.on, fireCues,
    wrapWithBounce, wrapF, clampVal, qmod, TimeWindow.finite, between,
    rangeStep, List.enum, List.enumFrom, List.filterMap, List.zip,
    List.zipWith, List.foldl, abs_lt]

/-- C2 amended: with `clamp_dt = 1/2` (large enough not to truncate the
0.5-second calls), three `advance(0.5)` calls move time through
`0 → 0.5 → 1.0 → 1.5`, and the cue at `1.0` is invoked TWICE: on the call
whose segment is `[0.5, 1.0]` and again on the call whose segment is
`[1.0, 1.5]`, because the closed-interval test includes the segment's left
endpoint. -/
theorem claim_C2_amended :
    (runSteps ((Timebase.init 0 1 WrapMode.pingpong ⟨0, some 2⟩ (1/2)).on 1)
        [1/2]).1.time = 1/2 ∧
    (runSteps ((Timebase.init 0 1 WrapMode.pingpong ⟨0, some 2⟩ (1/2)).on 1)
        [1/2, 1/2]).1.time = 1 ∧
    (runSteps ((Timebase.init 0 1 WrapMode.pingpong ⟨0, some 2⟩ (1/2)).on 1)
        [1/2, 1/2, 1/2]).1.time = 3/2 ∧
    (runSteps ((Timebase.init 0 1 WrapMode.pingpong ⟨0, some 2⟩ (1/2)).on 1)
        [1/2, 1/2, 1/2]).2 = [CueEvent.instant 0 1, CueEvent.instant 0 1] := by
  norm_num [runSteps, Timebase.step, Timebase.init, Timebase.on, fireCues,
    wrapWithBounce, wrapF, clampVal, qmod, TimeWindow.finite, between,
    rangeStep, List.enum, List.enumFrom, List.filterMap, List.zip,
    List.zipWith, List.foldl, abs_lt]

/-- C6: `seek(t)` sets `time` to `wrap(t)`, sets `prev_time` to that same new
time, and performs no cue-callback invocation whatsoever, for every state and
every target `t` (in particular whatever instant or range cues are
registered and whatever span is crossed). -/
theorem claim_C6_seek_wraps_and_fires_nothing :
    ∀ (s : Timebase) (t : ℚ),
      (s.seek t).1.time = wrapF s.wrap_mode s.window t ∧
      (s.seek t).1.prev_time = (s.seek t).1.time ∧
      (s.seek t).2 = [] := by
  intro s t
  exact ⟨rfl, rfl, rfl⟩

/-- C8: range-cue enter/exit pairing and endpoint-only membership.  With
`on_range(1, 2, enter, exit)` and 0.5-unit forward steps, driving time
`0 → 1.5` invokes `enter` exactly once, continuing `1.5 → 2.5` invokes `exit`
exactly once, and two further calls with time outside `[1, 2]` invoke
nothing.  Additionally a single advance whose segment `[0.5, 2.5]` sweeps
across the whole range `[1, 2]` (clamp_dt 1, rate 2) invokes neither `enter`
nor `exit` — membership is tested only at the endpoint `time`, while an
instant cue at `1.5` on the same segment does fire. -/
theorem claim_C8_range_cue_scenario :
    ((runSteps ((Timebase.init 0 1 WrapMode.clamp ⟨0, none⟩ (1/2)).on_range 1 2)
        [1, 1, 1]).1.time = 3/2 ∧
     (runSteps ((Timebase.init 0 1 WrapMode.clamp ⟨0, none⟩ (1/2)).on_range 1 2)
        [1, 1, 1]).2 = [CueEvent.enter 0 1]) ∧
    ((runSteps ((Timebase.init 0 1 WrapMode.clamp ⟨0, none⟩ (1/2)).on_range 1 2)
        [1, 1, 1, 1, 1]).1.time = 5/2 ∧
     (runSteps ((Timebase.init 0 1 WrapMode.clamp ⟨0, none⟩ (1/2)).on_range 1 2)
        [1, 1, 1, 1, 1]).2 = [CueEvent.enter 0 1, CueEvent.exit 0 (5/2)]) ∧
    ((runSteps ((Timebase.init 0 1 WrapMode.clamp ⟨0, none⟩ (1/2)).on_range 1 2)
        [1, 1, 1, 1, 1, 1, 1]).2
      = [CueEvent.enter 0 1, CueEvent.exit 0 (5/2)]) ∧
    (((((Timebase.init (1/2) 2 WrapMode.clamp ⟨0, none⟩ 1).on (3/2)).on_range 1 2).step
        1).1.time = 5/2 ∧
     ((((Timebase.init (1/2) 2 WrapMode.clamp ⟨0, none⟩ 1).on (3/2)).on_range 1 2).step
        1).2 = [CueEvent.instant 0 (3/2)]) := by
  norm_num [runSteps, Timebase.step, Timebase.init, Timebase.on,
    Timebase.on_range, fireCues, wrapWithBounce, wrapF, clampVal, qmod,
    TimeWindow.finite, between, rangeStep, List.enum, List.enumFrom,
    List.filterMap, List.zip, List.zipWith, List.foldl, abs_lt]

end TimebaseModel

namespace CoordsModel

/-- C10: with `meters_per_unit ≠ 0` and `x_right, y_up ∈ \x7b-1, +1\x7d`,
`scene_to_world_point` applied to the `(x, y)` components of
`world_to_scene_point (x_m, y_m)` returns `(x_m, y_m)` exactly, for every
world point. -/
theorem claim_C10_point_conversions_inverse (c : Coords) (x_m y_m : ℚ)
    (hm : c.meters_per_unit ≠ 0)
    (hx : c.x_right = 1 ∨ c.x_right = -1)
    (hy : c.y_up = 1 ∨ c.y_up = -1) :
    c.scene_to_world_point (c.world_to_scene_point x_m y_m).1
      (c.world_to_scene_point x_m y_m).2.1 = (x_m, y_m) := by
  unfold Coords.scene_to_world_point Coords.world_to_scene_point
    Coords.world_len_to_scene Coords.scene_len_to_world
  rcases hx with hx | hx <;> rcases hy with hy | hy <;>
    simp only [hx, hy] <;>
    refine Prod.ext ?_ ?_ <;>
    field_simp <;> ring

/-- Witness for C10 at a concrete non-trivial configuration. -/
theorem claim_C10_point_conversions_inverse_witness :
    (Coords.mk 2 (3, -1) 1 (-1)).scene_to_world_point
      ((Coords.mk 2 (3, -1) 1 (-1)).world_to_scene_point 5 7).1
      ((Coords.mk 2 (3, -1) 1 (-1)).world_to_scene_point 5 7).2.1 = (5, 7) :=
  claim_C10_point_conversions_inverse (Coords.mk 2 (3, -1) 1 (-1)) 5 7
    (by norm_num) (Or.inl rfl) (Or.inr rfl)

end CoordsModel

namespace TimebaseModel

theorem ordered_of_some {a b : ℚ} (h : a ≤ b) : TimeWindow.ordered ⟨a, some b⟩ := by
  intro b' hb'
  injection hb' with h'
  rwa [← h']

theorem ordered_of_none {a : ℚ} : TimeWindow.ordered ⟨a, none⟩ := by
  intro b' hb'
  cases hb'

theorem wrapWithBounce_fst_mem (s : Timebase) (hw : s.window.ordered)
    (u v : ℚ) : inWindow s.window (wrapWithBounce s u v).1 := by
  unfold wrapWithBounce
  by_cases h1 : s.wrap_mode = WrapMode.clamp ∨ s.window.finite = false
  · simpa [h1] using clampVal_mem s.window v hw
  · have hfin : s.window.finite = true := by
      cases hft : s.window.finite
      · exact absurd (Or.inr hft) h1
      · rfl
    simp only [h1, if_false]
    by_cases h2 : s.wrap_mode = WrapMode.loop
    · simpa [h2] using wrapF_mem s.wrap_mode s.window v hw
    · simp only [h2, if_false]
      cases hb : s.window.t_max with
      | none => simp [TimeWindow.finite, hb] at hfin
      | some b => simpa [hb] using wrapF_mem s.wrap_mode s.window v hw

/-- C3 counterexample: construction does not wrap `t0`, so immediately after
`Timebase(t0=5, window=[0, 2])` the time `5` violates `time ≤ t_max = 2`,
although the window is well ordered. -/
theorem claim_C3_counterexample :
    (Timebase.init 5 1 WrapMode.clamp ⟨0, some 2⟩ (1/30)).window.ordered ∧
    ¬ inWindow (Timebase.init 5 1 WrapMode.clamp ⟨0, some 2⟩ (1/30)).window
        (Timebase.init 5 1 WrapMode.clamp ⟨0, some 2⟩ (1/30)).time := by
  constructor
  · exact ordered_of_some (by norm_num)
  · intro h
    have h5 := h.2 2 rfl
    norm_num [Timebase.init] at h5

/-- C3 amended: for every Timebase whose window satisfies `t_min ≤ t_max`,
the current time satisfies `t_min ≤ time ≤ t_max` after every `seek`, after
`set_window` (with respect to the new, well-ordered window), after every
`set_wrap`, and after every `advance` call made while running; an `advance`
while paused leaves time unchanged.  (After plain construction the bound can
fail, since `__init__` stores `t0` unwrapped.) -/
theorem claim_C3_amended (s : Timebase) (t t_min dt : ℚ) (t_max : Option ℚ)
    (m : WrapMode) (hw : s.window.ordered)
    (hw2 : TimeWindow.ordered ⟨t_min, t_max⟩) :
    inWindow s.window ((s.seek t).1.time) ∧
    inWindow ⟨t_min, t_max⟩ ((s.set_window t_min t_max).1.time) ∧
    inWindow s.window ((s.set_wrap m).1.time) ∧
    (s.running = true → inWindow s.window ((s.step dt).1.time)) ∧
    (s.running = false → (s.step dt).1.time = s.time) := by
  refine ⟨?_, ?_, ?_, ?_, ?_⟩
  · exact wrapF_mem s.wrap_mode s.window t hw
  · exact wrapF_mem s.wrap_mode ⟨t_min, t_max⟩ s.time hw2
  · exact wrapF_mem m s.window s.time hw
  · intro h
    rw [step_running s dt h, fireCues_time]
    exact wrapWithBounce_fst_mem s hw _ _
  · intro h
    rw [step_not_running s dt h]

/-- Witness for C3 amended: concrete clamp timebase on `[0, 2]`, seeking to 5
lands inside the window. -/
theorem claim_C3_amended_witness :
    inWindow (TimeWindow.mk 0 (some 2))
      (((Timebase.init 0 1 WrapMode.clamp ⟨0, some 2⟩ (1/30)).seek 5).1.time) :=
  (claim_C3_amended (Timebase.init 0 1 WrapMode.clamp ⟨0, some 2⟩ (1/30))
    5 1 1 (some 3) WrapMode.loop (ordered_of_some (by norm_num))
    (ordered_of_some (by norm_num))).1

end TimebaseModel

namespace TimebaseModel

/-- C4 counterexample: under Loop the wrap-back jump breaks the step bound.
State: `time = 1.9`, window `[0, 2]`, `rate = 6`, `clamp_dt = 1/30`, running.
One `advance(1.0)` moves time `1.9 → 0.1` (the proposed `2.1` wraps to
`0.1`), a change of `1.8`, far above `|rate| · (1/30) = 0.2`. -/
theorem claim_C4_counterexample :
    (Timebase.mk (19/10) (19/10) 6 true WrapMode.loop ⟨0, some 2⟩ (1/30) 1
        [] [] []).clamp_dt = 1/30 ∧
    inWindow (TimeWindow.mk 0 (some 2)) (19/10) ∧
    ((Timebase.mk (19/10) (19/10) 6 true WrapMode.loop ⟨0, some 2⟩ (1/30) 1
        [] [] []).step 1).1.time = 1/10 ∧
    ¬ (|((Timebase.mk (19/10) (19/10) 6 true WrapMode.loop ⟨0, some 2⟩ (1/30) 1
          [] [] []).step 1).1.time - 19/10| ≤ |(6 : ℚ)| * (1/30)) := by
  refine ⟨rfl, inWindow_some rfl (by norm_num) (by norm_num), ?_, ?_⟩ <;>
    norm_num [Timebase.step, fireCues, wrapWithBounce, wrapF, clampVal, qmod,
      TimeWindow.finite, between, rangeStep, List.enum, List.enumFrom,
      List.filterMap, List.zip, List.zipWith, List.foldl, abs_lt, abs_le]

/-- C4 amended: the per-call step bound holds under Clamp and PingPong (the
modes whose wrap is 1-Lipschitz), for every state whose time is already
inside the window and whose `dir_sign` is `±1`: with `clamp_dt = 1/30`, one
`advance(1.0)` changes time by at most `|rate| · (1/30)`.  Under Loop the
wrap-back jump can exceed the bound, as the counterexample shows. -/
theorem claim_C4_amended (s : Timebase)
    (hdt : s.clamp_dt = 1/30)
    (hmode : s.wrap_mode = WrapMode.clamp ∨ s.wrap_mode = WrapMode.pingpong)
    (hdir : s.dir_sign = 1 ∨ s.dir_sign = -1)
    (ht : inWindow s.window s.time) :
    |(s.step 1).1.time - s.time| ≤ |s.rate| * (1/30) := by
  cases hr : s.running with
  | false =>
    rw [step_not_running s 1 hr]
    simp only [sub_self, abs_zero]
    positivity
  | true =>
    rw [step_running s 1 hr, fireCues_time]
    have hdt1 : (if (1:ℚ) ≤ s.clamp_dt then (1:ℚ) else s.clamp_dt) = 1/30 := by
      rw [hdt]; norm_num
    rw [hdt1]
    set e := s.rate * (if s.wrap_mode = WrapMode.pingpong then s.dir_sign else 1)
        * (1/30) with he
    have habs_e : |e| = |s.rate| * (1/30) := by
      rw [he]
      by_cases hpp : s.wrap_mode = WrapMode.pingpong
      · rw [if_pos hpp, abs_mul, abs_mul]
        rcases hdir with h | h <;> rw [h] <;> norm_num
      · rw [if_neg hpp, abs_mul, abs_mul]
        norm_num
    rw [← habs_e]
    rcases hmode with hm | hm
    · have hw1 : (wrapWithBounce s s.time (s.time + e)).1
          = clampVal s.window (s.time + e) := by
        unfold wrapWithBounce
        simp [hm]
      rw [hw1]
      exact abs_clampVal_sub_le s.window e ht
    · by_cases hfin : s.window.finite = true
      · cases hb : s.window.t_max with
        | none => simp [TimeWindow.finite, hb] at hfin
        | some b =>
          have hab : s.window.t_min < b := by
            simpa [TimeWindow.finite, hb] using hfin
          have hL : (0 : ℚ) < b - s.window.t_min := by linarith
          have hw1 : (wrapWithBounce s s.time (s.time + e)).1
              = wrapF WrapMode.pingpong s.window (s.time + e) := by
            unfold wrapWithBounce
            rw [← hm]
            simp [hm, hfin, hb]
          rw [hw1, wrapF_pingpong_eq hb hab]
          have hfix := wrapF_pingpong_fixed hb hab ht
          rw [wrapF_pingpong_eq hb hab] at hfix
          have hsplit : s.window.t_min + triWave (b - s.window.t_min)
                (s.time + e - s.window.t_min) - s.time
              = triWave (b - s.window.t_min) (s.time + e - s.window.t_min)
                - triWave (b - s.window.t_min) (s.time - s.window.t_min) := by
            linarith [hfix]
          rw [hsplit]
          calc |triWave (b - s.window.t_min) (s.time + e - s.window.t_min)
                - triWave (b - s.window.t_min) (s.time - s.window.t_min)|
              ≤ |(s.time + e - s.window.t_min) - (s.time - s.window.t_min)| :=
                abs_triWave_sub_le hL _ _
            _ = |e| := by ring_nf
      · have hff : s.window.finite = false := by
          cases hft : s.window.finite
          · rfl
          · exact absurd hft hfin
        have hw1 : (wrapWithBounce s s.time (s.time + e)).1
            = clampVal s.window (s.time + e) := by
          unfold wrapWithBounce
          simp [hff]
        rw [hw1]
        exact abs_clampVal_sub_le s.window e ht

/-- Witness for C4 amended: clamp mode on `[0, 2]` starting at `time = 1`. -/
theorem claim_C4_amended_witness :
    |((Timebase.init 1 1 WrapMode.clamp ⟨0, some 2⟩ (1/30)).step 1).1.time
      - (Timebase.init 1 1 WrapMode.clamp ⟨0, some 2⟩ (1/30)).time|
      ≤ |(Timebase.init 1 1 WrapMode.clamp ⟨0, some 2⟩ (1/30)).rate| * (1/30) :=
  claim_C4_amended (Timebase.init 1 1 WrapMode.clamp ⟨0, some 2⟩ (1/30))
    rfl (Or.inl rfl) (Or.inl rfl)
    (inWindow_some rfl (by norm_num [Timebase.init]) (by norm_num [Timebase.init]))

end TimebaseModel

namespace TimebaseModel

theorem triWave_period {L : ℚ} (hL : 0 < L) (u : ℚ) :
    triWave L (u + 2 * L) = triWave L u := by
  have h2L : (2 * L : ℚ) ≠ 0 := by positivity
  unfold triWave
  rw [qmod_add_right u h2L]

theorem triWave_asc {L : ℚ} (hL : 0 < L) {u : ℚ} (k : ℤ)
    (h1 : 2 * L * k ≤ u) (h2 : u ≤ 2 * L * k + L) :
    triWave L u = u - 2 * L * k := by
  have h2L : (0:ℚ) < 2 * L := by linarith
  have hfl : ⌊u / (2 * L)⌋ = k := by
    rw [Int.floor_eq_iff]
    constructor
    · rw [le_div_iff₀ h2L]
      nlinarith
    · rw [div_lt_iff₀ h2L]
      nlinarith
  have hq : qmod u (2 * L) = u - 2 * L * k := by
    unfold qmod
    rw [hfl]
  unfold triWave
  rw [hq]
  have hle : u - 2 * L * k ≤ L := by linarith
  simp [hle]

theorem triWave_desc {L : ℚ} (hL : 0 < L) {u : ℚ} (k : ℤ)
    (h1 : 2 * L * k + L ≤ u) (h2 : u ≤ 2 * L * k + 2 * L) :
    triWave L u = 2 * L * k + 2 * L - u := by
  have h2L : (0:ℚ) < 2 * L := by linarith
  by_cases hend : u = 2 * L * k + 2 * L
  · have hdiv : u / (2 * L) = ((k + 1 : ℤ) : ℚ) := by
      rw [hend]
      push_cast
      field_simp
      ring
    have hfl : ⌊u / (2 * L)⌋ = k + 1 := by
      rw [hdiv, Int.floor_intCast]
    have hq : qmod u (2 * L) = 0 := by
      unfold qmod
      rw [hfl, hend]
      push_cast
      ring
    unfold triWave
    rw [hq]
    have : (0:ℚ) ≤ L := le_of_lt hL
    simp [this]
    linarith
  · have hlt : u < 2 * L * k + 2 * L := lt_of_le_of_ne h2 hend
    have hfl : ⌊u / (2 * L)⌋ = k := by
      rw [Int.floor_eq_iff]
      constructor
      · rw [le_div_iff₀ h2L]
        nlinarith
      · rw [div_lt_iff₀ h2L]
        nlinarith
    have hq : qmod u (2 * L) = u - 2 * L * k := by
      unfold qmod
      rw [hfl]
    unfold triWave
    rw [hq]
    by_cases hm : u - 2 * L * k ≤ L
    · have hu : u = 2 * L * k + L := by linarith
      simp [hm]
      rw [hu]
      ring
    · simp [hm]
      ring

/-- C9: under PingPong with a finite window `[a, b]` of length `L = b - a > 0`,
`wrap` is periodic with period `2L`, is piecewise linear (it equals
`t - 2Lk` on each ascending half period and `a + (a + 2Lk + 2L) - t` on each
descending half period, the closed pieces overlapping at the fold points so
there is no jump there), and is 1-Lipschitz (hence continuous). -/
theorem claim_C9_pingpong_triangle_wave (w : TimeWindow) (b : ℚ)
    (hb : w.t_max = some b) (hab : w.t_min < b) :
    (∀ t, wrapF WrapMode.pingpong w (t + 2 * (b - w.t_min))
        = wrapF WrapMode.pingpong w t) ∧
    (∀ (t : ℚ) (k : ℤ),
      (w.t_min + 2 * (b - w.t_min) * k ≤ t →
        t ≤ w.t_min + 2 * (b - w.t_min) * k + (b - w.t_min) →
        wrapF WrapMode.pingpong w t = t - 2 * (b - w.t_min) * k) ∧
      (w.t_min + 2 * (b - w.t_min) * k + (b - w.t_min) ≤ t →
        t ≤ w.t_min + 2 * (b - w.t_min) * k + 2 * (b - w.t_min) →
        wrapF WrapMode.pingpong w t
          = w.t_min + (w.t_min + 2 * (b - w.t_min) * k + 2 * (b - w.t_min)) - t)) ∧
    (∀ x y, |wrapF WrapMode.pingpong w x - wrapF WrapMode.pingpong w y|
        ≤ |x - y|) := by
  have hL : (0:ℚ) < b - w.t_min := by linarith
  refine ⟨?_, ?_, ?_⟩
  · intro t
    rw [wrapF_pingpong_eq hb hab, wrapF_pingpong_eq hb hab]
    have harg : t + 2 * (b - w.t_min) - w.t_min
        = (t - w.t_min) + 2 * (b - w.t_min) := by ring
    rw [harg, triWave_period hL]
  · intro t k
    constructor
    · intro h1 h2
      rw [wrapF_pingpong_eq hb hab,
        triWave_asc hL k (by linarith) (by linarith)]
      ring
    · intro h1 h2
      rw [wrapF_pingpong_eq hb hab,
        triWave_desc hL k (by linarith) (by linarith)]
      ring
  · intro x y
    rw [wrapF_pingpong_eq hb hab, wrapF_pingpong_eq hb hab]
    have hdiff : w.t_min + triWave (b - w.t_min) (x - w.t_min)
        - (w.t_min + triWave (b - w.t_min) (y - w.t_min))
        = triWave (b - w.t_min) (x - w.t_min)
          - triWave (b - w.t_min) (y - w.t_min) := by ring
    rw [hdiff]
    calc |triWave (b - w.t_min) (x - w.t_min)
          - triWave (b - w.t_min) (y - w.t_min)|
        ≤ |(x - w.t_min) - (y - w.t_min)| := abs_triWave_sub_le hL _ _
      _ = |x - y| := by ring_nf

/-- Witness for C9: on the window `[0, 2]` the pingpong wrap of `1/2 + 4`
equals the wrap of `1/2`. -/
theorem claim_C9_pingpong_triangle_wave_witness :
    wrapF WrapMode.pingpong ⟨0, some 2⟩ (1/2 + 2 * (2 - 0))
      = wrapF WrapMode.pingpong ⟨0, some 2⟩ (1/2) :=
  (claim_C9_pingpong_triangle_wave ⟨0, some 2⟩ 2 rfl (by norm_num)).1 (1/2)

end TimebaseModel

namespace TimebaseModel

/-- C5: bounce reporting and `dir_sign` flipping.  Under PingPong with a
finite positive-length window `[a, b]` and running clock, one `advance`
negates `dir_sign` exactly when `wrap_with_bounce` reports a bounce, and
`wrap_with_bounce` reports a bounce exactly when the unwrapped `t_before`
and `t_after` lie strictly on opposite sides of `a` or of `b`, or the
wrapped result lies within `1e-9` of either boundary.  Under Clamp and Loop
no bounce is ever reported and `dir_sign` never changes. -/
theorem claim_C5_bounce_and_dir_sign (s : Timebase) (dt t_before t_after b : ℚ)
    (hpp : s.wrap_mode = WrapMode.pingpong) (hb : s.window.t_max = some b)
    (hfin : s.window.t_min < b) (hrun : s.running = true) :
    ((s.step dt).1.dir_sign =
      if (wrapWithBounce s s.time (s.time + s.rate * s.dir_sign *
            (if dt ≤ s.clamp_dt then dt else s.clamp_dt))).2 = true
      then -s.dir_sign else s.dir_sign) ∧
    ((wrapWithBounce s t_before t_after).2 = true ↔
      ((t_before - s.window.t_min) * (t_after - s.window.t_min) < 0 ∨
       (t_before - b) * (t_after - b) < 0 ∨
       |wrapF WrapMode.pingpong s.window t_after - s.window.t_min|
         < 1/1000000000 ∨
       |wrapF WrapMode.pingpong s.window t_after - b| < 1/1000000000)) ∧
    (∀ (s2 : Timebase) (u v dt2 : ℚ),
      s2.wrap_mode = WrapMode.clamp ∨ s2.wrap_mode = WrapMode.loop →
      (wrapWithBounce s2 u v).2 = false ∧
      (s2.step dt2).1.dir_sign = s2.dir_sign) := by
  refine ⟨?_, ?_, ?_⟩
  · rw [step_running s dt hrun, fireCues_dir]
    simp only [hpp, if_true, and_true]
    by_cases hw : (wrapWithBounce s s.time (s.time + s.rate * s.dir_sign *
        (if dt ≤ s.clamp_dt then dt else s.clamp_dt))).2 = true
    · simp [hw, mul_neg_one]
    · simp [hw]
  · have hft : s.window.finite = true := by
      simp [TimeWindow.finite, hb, hfin]
    unfold wrapWithBounce
    rw [hpp]
    simp only [hft, hb, pingpong_ne_clamp, pingpong_ne_loop,
      Bool.true_eq_false, or_false, if_false, Bool.or_eq_true,
      decide_eq_true_eq]
    tauto
  · intro s2 u v dt2 hm
    constructor
    · rcases hm with h | h <;> cases hft : s2.window.finite <;>
        simp [wrapWithBounce, h, hft]
    · cases hr : s2.running with
      | false => rw [step_not_running s2 dt2 hr]
      | true =>
        rw [step_running s2 dt2 hr, fireCues_dir]
        rcases hm with h | h <;> simp [h]

/-- Witness for C5: a small pingpong step away from the boundary does not
bounce, so `dir_sign` stays `1`. -/
theorem claim_C5_bounce_and_dir_sign_witness :
    ((Timebase.init 0 1 WrapMode.pingpong ⟨0, some 2⟩ (1/30)).step
        (1/30)).1.dir_sign = 1 := by
  have h := (claim_C5_bounce_and_dir_sign
      (Timebase.init 0 1 WrapMode.pingpong ⟨0, some 2⟩ (1/30)) (1/30) 0 0 2
      rfl rfl (by norm_num [Timebase.init]) rfl).1
  rw [h]
  norm_num [wrapWithBounce, wrapF, clampVal, qmod, TimeWindow.finite,
    Timebase.init, abs_lt]

end TimebaseModel

namespace TimebaseModel

theorem between_iff (x u v : ℚ) :
    between x u v = true ↔ min u v ≤ x ∧ x ≤ max u v := by
  simp only [between, Bool.and_eq_true, decide_eq_true_eq, min_def, max_def]

theorem between_comm (x u v : ℚ) : between x u v = between x v u := by
  rw [Bool.eq_iff_iff, between_iff, between_iff, min_comm, max_comm]

theorem rangeStep_snd_ne_instant (t : ℚ) (idx : ℕ) (c : ℚ × ℚ) (was : Bool)
    (i : ℕ) (tc : ℚ) :
    (rangeStep t idx c was).2 ≠ some (CueEvent.instant i tc) := by
  simp only [rangeStep]
  split_ifs <;> simp

theorem fireCues_events_eq (s : Timebase) :
    (fireCues s).2 =
      (if s.prev_time ≠ s.time then
        (s.instant_cues.enum.filterMap fun p =>
          if between p.2 s.prev_time s.time then
            some (CueEvent.instant p.1 p.2)
          else none)
      else []) ++
      (((s.range_cues.zip s.range_state).enum.map fun p =>
          rangeStep s.time p.1 p.2.1 p.2.2).filterMap Prod.snd) := rfl

theorem fireCues_instant_mem (s : Timebase) (i : ℕ) (tc : ℚ) :
    CueEvent.instant i tc ∈ (fireCues s).2 ↔
      (s.prev_time ≠ s.time ∧ s.instant_cues[i]? = some tc ∧
       min s.prev_time s.time ≤ tc ∧ tc ≤ max s.prev_time s.time) := by
  rw [fireCues_events_eq, List.mem_append]
  have hrange : CueEvent.instant i tc ∈
      (((s.range_cues.zip s.range_state).enum.map fun p =>
        rangeStep s.time p.1 p.2.1 p.2.2).filterMap Prod.snd) ↔ False := by
    simp only [List.mem_filterMap, List.mem_map, iff_false, not_exists]
    rintro p ⟨⟨q, hq, rfl⟩, hp2⟩
    exact rangeStep_snd_ne_instant _ _ _ _ _ _ hp2
  rw [hrange, or_false]
  by_cases hpn : s.prev_time = s.time
  · simp [hpn]
  · rw [if_pos hpn]
    rw [List.mem_filterMap]
    constructor
    · rintro ⟨p, hpmem, hpeq⟩
      by_cases hbet : between p.2 s.prev_time s.time
      · rw [if_pos hbet] at hpeq
        injection hpeq with h0
        injection h0 with h1 h2
        subst h1
        subst h2
        obtain ⟨hb1, hb2⟩ := (between_iff _ _ _).mp hbet
        exact ⟨hpn, List.mem_enum_iff_getElem?.mp hpmem, hb1, hb2⟩
      · rw [if_neg hbet] at hpeq
        cases hpeq
    · rintro ⟨-, hget, h1, h2⟩
      refine ⟨(i, tc), List.mk_mem_enum_iff_getElem?.mpr hget, ?_⟩
      rw [if_pos ((between_iff _ _ _).mpr ⟨h1, h2⟩)]

theorem filterMap_ite_sublist {α β : Type} (g : α → β) (c : α → Bool) :
    ∀ L : List α,
      (L.filterMap fun p => if c p then some (g p) else none).Sublist (L.map g)
  | [] => by simp
  | a :: L => by
    by_cases h : c a
    · simpa [List.filterMap_cons, h] using
        List.Sublist.cons₂ (g a) (filterMap_ite_sublist g c L)
    · simpa [List.filterMap_cons, h] using
        List.Sublist.cons (g a) (filterMap_ite_sublist g c L)

theorem rangeStep_snd_instantIdx (t : ℚ) (idx : ℕ) (c : ℚ × ℚ) (was : Bool) :
    ∀ e, (rangeStep t idx c was).2 = some e → instantIdx e = none := by
  intro e he
  simp only [rangeStep] at he
  split_ifs at he <;> simp_all [instantIdx] <;> rw [← he]

theorem fireCues_instant_indices_sorted (s : Timebase) :
    List.Sorted (· < ·) ((fireCues s).2.filterMap instantIdx) := by
  rw [fireCues_events_eq, List.filterMap_append]
  have hB : (((s.range_cues.zip s.range_state).enum.map fun p =>
      rangeStep s.time p.1 p.2.1 p.2.2).filterMap Prod.snd).filterMap instantIdx
      = [] := by
    rw [List.filterMap_eq_nil_iff]
    intro e he
    obtain ⟨p, hp, hpe⟩ := List.mem_filterMap.mp he
    obtain ⟨q, hq, rfl⟩ := List.mem_map.mp hp
    exact rangeStep_snd_instantIdx _ _ _ _ e hpe
  rw [hB, List.append_nil]
  by_cases hpn : s.prev_time ≠ s.time
  · rw [if_pos hpn, List.filterMap_filterMap]
    have hfun : (fun p : ℕ × ℚ =>
        (if between p.2 s.prev_time s.time then
          some (CueEvent.instant p.1 p.2) else none).bind instantIdx)
        = fun p : ℕ × ℚ =>
          if between p.2 s.prev_time s.time then some p.1 else none := by
      funext p
      split_ifs <;> rfl
    rw [hfun]
    have hsub := filterMap_ite_sublist Prod.fst
      (fun p : ℕ × ℚ => between p.2 s.prev_time s.time) s.instant_cues.enum
    rw [List.enum_map_fst] at hsub
    exact List.Pairwise.sublist hsub (List.pairwise_lt_range _)
  · rw [if_neg hpn]
    simp

/-- C7: on a running `advance`, an instant cue `(i, tc)` is invoked exactly
when the step moved time (`prev_time ≠ time`) and `tc` lies in the closed
interval between `prev_time` and `time`; the containment test is symmetric
in the two segment endpoints, no instant cue fires when `prev_time = time`,
and the invoked instant cues come in registration-index order. -/
theorem claim_C7_instant_cue_firing (s : Timebase) (dt : ℚ)
    (hrun : s.running = true) :
    (∀ i tc, CueEvent.instant i tc ∈ (s.step dt).2 ↔
      ((s.step dt).1.prev_time ≠ (s.step dt).1.time ∧
       s.instant_cues[i]? = some tc ∧
       min (s.step dt).1.prev_time (s.step dt).1.time ≤ tc ∧
       tc ≤ max (s.step dt).1.prev_time (s.step dt).1.time)) ∧
    ((s.step dt).1.prev_time = (s.step dt).1.time →
      ∀ i tc, CueEvent.instant i tc ∉ (s.step dt).2) ∧
    (∀ x u v, between x u v = between x v u) ∧
    List.Sorted (· < ·) ((s.step dt).2.filterMap instantIdx) := by
  rw [step_running s dt hrun]
  have hiff : ∀ i tc,
      CueEvent.instant i tc ∈ (fireCues { s with
        dir_sign :=
          if (wrapWithBounce s s.time (s.time + s.rate *
                (if s.wrap_mode = WrapMode.pingpong then s.dir_sign else 1) *
                (if dt ≤ s.clamp_dt then dt else s.clamp_dt))).2 = true ∧
              s.wrap_mode = WrapMode.pingpong
          then s.dir_sign * (-1) else s.dir_sign
        prev_time := s.time
        time := (wrapWithBounce s s.time (s.time + s.rate *
                (if s.wrap_mode = WrapMode.pingpong then s.dir_sign else 1) *
                (if dt ≤ s.clamp_dt then dt else s.clamp_dt))).1 }).2 ↔
      ((fireCues { s with
        dir_sign :=
          if (wrapWithBounce s s.time (s.time + s.rate *
                (if s.wrap_mode = WrapMode.pingpong then s.dir_sign else 1) *
                (if dt ≤ s.clamp_dt then dt else s.clamp_dt))).2 = true ∧
              s.wrap_mode = WrapMode.pingpong
          then s.dir_sign * (-1) else s.dir_sign
        prev_time := s.time
        time := (wrapWithBounce s s.time (s.time + s.rate *
                (if s.wrap_mode = WrapMode.pingpong then s.dir_sign else 1) *
                (if dt ≤ s.clamp_dt then dt else s.clamp_dt))).1 }).1.prev_time ≠
        (fireCues { s with
        dir_sign :=
          if (wrapWithBounce s s.time (s.time + s.rate *
                (if s.wrap_mode = WrapMode.pingpong then s.dir_sign else 1) *
                (if dt ≤ s.clamp_dt then dt else s.clamp_dt))).2 = true ∧
              s.wrap_mode = WrapMode.pingpong
          then s.dir_sign * (-1) else s.dir_sign
        prev_time := s.time
        time := (wrapWithBounce s s.time (s.time + s.rate *
                (if s.wrap_mode = WrapMode.pingpong then s.dir_sign else 1) *
                (if dt ≤ s.clamp_dt then dt else s.clamp_dt))).1 }).1.time ∧
       s.instant_cues[i]? = some tc ∧
       min (fireCues { s with
        dir_sign :=
          if (wrapWithBounce s s.time (s.time + s.rate *
                (if s.wrap_mode = WrapMode.pingpong then s.dir_sign else 1) *
                (if dt ≤ s.clamp_dt then dt else s.clamp_dt))).2 = true ∧
              s.wrap_mode = WrapMode.pingpong
          then s.dir_sign * (-1) else s.dir_sign
        prev_time := s.time
        time := (wrapWithBounce s s.time (s.time + s.rate *
                (if s.wrap_mode = WrapMode.pingpong then s.dir_sign else 1) *
                (if dt ≤ s.clamp_dt then dt else s.clamp_dt))).1 }).1.prev_time
         (fireCues { s with
        dir_sign :=
          if (wrapWithBounce s s.time (s.time + s.rate *
                (if s.wrap_mode = WrapMode.pingpong then s.dir_sign else 1) *
                (if dt ≤ s.clamp_dt then dt else s.clamp_dt))).2 = true ∧
              s.wrap_mode = WrapMode.pingpong
          then s.dir_sign * (-1) else s.dir_sign
        prev_time := s.time
        time := (wrapWithBounce s s.time (s.time + s.rate *
                (if s.wrap_mode = WrapMode.pingpong then s.dir_sign else 1) *
                (if dt ≤ s.clamp_dt then dt else s.clamp_dt))).1 }).1.time ≤ tc ∧
       tc ≤ max (fireCues { s with
        dir_sign :=
          if (wrapWithBounce s s.time (s.time + s.rate *
                (if s.wrap_mode = WrapMode.pingpong then s.dir_sign else 1) *
                (if dt ≤ s.clamp_dt then dt else s.clamp_dt))).2 = true ∧
              s.wrap_mode = WrapMode.pingpong
          then s.dir_sign * (-1) else s.dir_sign
        prev_time := s.time
        time := (wrapWithBounce s s.time (s.time + s.rate *
                (if s.wrap_mode = WrapMode.pingpong then s.dir_sign else 1) *
                (if dt ≤ s.clamp_dt then dt else s.clamp_dt))).1 }).1.prev_time
         (fireCues { s with
        dir_sign :=
          if (wrapWithBounce s s.time (s.time + s.rate *
                (if s.wrap_mode = WrapMode.pingpong then s.dir_sign else 1) *
                (if dt ≤ s.clamp_dt then dt else s.clamp_dt))).2 = true ∧
              s.wrap_mode = WrapMode.pingpong
          then s.dir_sign * (-1) else s.dir_sign
        prev_time := s.time
        time := (wrapWithBounce s s.time (s.time + s.rate *
                (if s.wrap_mode = WrapMode.pingpong then s.dir_sign else 1) *
                (if dt ≤ s.clamp_dt then dt else s.clamp_dt))).1 }).1.time) := by
    intro i tc
    rw [fireCues_prev, fireCues_time, fireCues_instant_mem]
  refine ⟨hiff, ?_, fun x u v => between_comm x u v,
    fireCues_instant_indices_sorted _⟩
  intro hpt i tc hmem
  exact ((hiff i tc).mp hmem).1 hpt

/-- Witness for C7: a clamp timebase moving `3/4 → 5/4` fires the instant
cue registered at `1`. -/
theorem claim_C7_instant_cue_firing_witness :
    CueEvent.instant 0 1 ∈
      (((Timebase.init (3/4) 1 WrapMode.clamp ⟨0, none⟩ (1/2)).on 1).step 1).2 := by
  refine ((claim_C7_instant_cue_firing
      ((Timebase.init (3/4) 1 WrapMode.clamp ⟨0, none⟩ (1/2)).on 1) 1 rfl).1
      0 1).mpr ⟨?_, ?_, ?_, ?_⟩ <;>
    norm_num [Timebase.step, Timebase.init, Timebase.on, fireCues,
      wrapWithBounce, wrapF, clampVal, qmod, TimeWindow.finite, between,
      rangeStep, List.enum, List.enumFrom, List.filterMap, List.zip,
      List.zipWith, abs_lt]

end TimebaseModel
